import Mathlib

/-!
Verification of the orchestration and coordinate-mapping layer of the
fm-index program (`src/external/fm-index.cpp`).

The reference text is modelled as a `List Char`; the external full-text
index engine (sdsl) is modelled from the spec by a pure `locate` function.
All other definitions are shallow embeddings of the functions in
`fm-index.cpp`: `getRecordStarts`, `findSourceId`, `locateQuery`,
`locateQueries`, `buildIndex`, `parseArgs` and `main`.  Machine `size_t`
arithmetic is made explicit where it matters (the loop bound of
`findSourceId`).  Fallible code returns `Except`/`Option`; `Option.none`
at the outermost layer marks undefined behaviour (an out-of-bounds
`std::vector` access).
-/

namespace FmIndex

/-- Modulus of the C `size_t` type (64-bit platform, as assumed by the code). -/
def SIZE_T_MOD : Nat := 2 ^ 64

/-- Modelled from the spec: the external full-text index engine's
`locate(Index, pattern) -> set of absolute offsets` primitive (the sdsl
`locate` call, excluded from the repository as a collaborator).  It returns
every absolute offset at which the pattern occurs verbatim in the indexed
text, here enumerated in ascending order. -/
def locate (T q : List Char) : List Nat :=
  (List.range (T.length + 1)).filter (fun i => decide ((T.drop i).take q.length = q))

/-- The `sort(...)` call applied to the offsets returned by the engine
(`fm-index.cpp` lines 218 and 295). -/
def sortHits (l : List Nat) : List Nat :=
  l.insertionSort (· ≤ ·)

/-- The boundary array built by `getRecordStarts` (lines 215-223) when no
cached `.idx` file loads: locate every terminator, sort ascending, prefix 0
and set `starts[i] = lineEndLocations[i-1] + 1`. -/
def getRecordStarts (T : List Char) : List Nat :=
  0 :: (sortHits (locate T ['\n'])).map (· + 1)

/-- Message of the exception thrown by `findSourceId` (line 323). -/
def invalidHitMsg : String := "Invalid hit: cannot associate a record."

/-- Loop body of `findSourceId` (lines 319-321): `i` is the current loop
index and `fuel` the number of iterations left (`bound - i` where `bound`
is the `size_t` value `recordStarts.size() - 1`).  `none` models an
out-of-bounds `std::vector::operator[]` access (undefined behaviour). -/
def findSourceIdFrom (recordStarts : List Nat) (hitBegin : Nat) :
    Nat → Nat → Option (Except String Nat)
  | _, 0 => some (Except.error invalidHitMsg)
  | i, fuel + 1 =>
    match recordStarts[i]?, recordStarts[i + 1]? with
    | some a, some b =>
      if a ≤ hitBegin ∧ hitBegin < b then some (Except.ok i)
      else findSourceIdFrom recordStarts hitBegin (i + 1) fuel
    | _, _ => none

/-- `findSourceId` (lines 317-324).  The loop bound `recordStarts.size() - 1`
is computed in `size_t` (a vector size is always `< 2^64`), so it equals
`size - 1` for a non-empty vector and underflows to `2^64 - 1` when the
vector is empty. -/
def findSourceId (recordStarts : List Nat) (hitBegin : Nat) :
    Option (Except String Nat) :=
  findSourceIdFrom recordStarts hitBegin 0
    (match recordStarts.length with
      | 0 => SIZE_T_MOD - 1
      | n + 1 => n)

/-- One output row (the six `cout` columns of lines 306-311). -/
structure Hit where
  sourceName : String
  sourceId : Nat
  sourceLength : Nat
  queryId : Nat
  hitBegin : Nat
  hitEnd : Nat
deriving DecidableEq

/-- The row emitted by `locateQuery` for the occurrence at absolute offset
`b` resolved to record `i` (lines 299-311).  All subtractions are on
`size_t`; under the boundary-map invariants they never underflow, so `Nat`
subtraction coincides with them. -/
def mkHit (rs : List Nat) (sn : String) (qid qlen b i : Nat) : Hit :=
  { sourceName := sn
    sourceId := i
    sourceLength := rs.getD (i + 1) 0 - rs.getD i 0 - 1
    queryId := qid
    hitBegin := b - rs.getD i 0
    hitEnd := (b + qlen) - rs.getD i 0 }

/-- Rendering of a row exactly as the `cout` statement prints it. -/
def renderHit (h : Hit) : String :=
  h.sourceName ++ "\t" ++ toString h.sourceId ++ "\t" ++ toString h.sourceLength
    ++ "\t" ++ toString h.queryId ++ "\t" ++ toString h.hitBegin
    ++ "\t" ++ toString h.hitEnd

/-- Loop of `locateQuery` over the sorted occurrence offsets (lines
297-312).  Returns the rows printed so far together with the
`FmIndexException` message if `findSourceId` threw. -/
def locateRows (rs : List Nat) (sn : String) (qid qlen : Nat) :
    List Nat → Option (List Hit × Option String)
  | [] => some ([], none)
  | b :: bs =>
    match findSourceId rs b with
    | none => none
    | some (Except.error e) => some ([], some e)
    | some (Except.ok i) =>
      match locateRows rs sn qid qlen bs with
      | none => none
      | some (rows, r) => some (mkHit rs sn qid qlen b i :: rows, r)

/-- `locateQuery` (lines 286-315): locate the query, sort the offsets and
emit one row per offset. -/
def locateQuery (T : List Char) (rs : List Nat) (sn : String) (qid : Nat)
    (q : List Char) : Option (List Hit × Option String) :=
  locateRows rs sn qid q.length (sortHits (locate T q))

/-- Result of processing one query source (`locateQueries`, lines 252-284):
the rows printed, the escaping `FmIndexException` message if any, the next
unused index into the `hasStdin()` poll oracle, and the lines left unread
on the stream when the loop stopped. -/
structure SourceOut where
  rows : List Hit
  exc : Option String
  nextPoll : Nat
  rest : List String
deriving DecidableEq

/-- Loop of `locateQueries` (lines 268-276): read a line, process it if
non-empty (post-incrementing the query id), then — only when the source is
named "stdin" — poll `hasStdin()` and break if no data is available.  The
poll results are an oracle `avail` indexed by poll number `p`. -/
def locateQueriesGo (T : List Char) (rs : List Nat) (sn : String)
    (avail : Nat → Bool) : List String → Nat → Nat → Option SourceOut
  | [], _, p => some ⟨[], none, p, []⟩
  | line :: rest, qid, p =>
    if line.length > 0 then
      match locateQuery T rs sn qid line.toList with
      | none => none
      | some (rows, some e) => some ⟨rows, some e, p, rest⟩
      | some (rows, none) =>
        if sn == "stdin" then
          if avail p then
            match locateQueriesGo T rs sn avail rest (qid + 1) (p + 1) with
            | none => none
            | some out => some ⟨rows ++ out.rows, out.exc, out.nextPoll, out.rest⟩
          else some ⟨rows, none, p + 1, rest⟩
        else
          match locateQueriesGo T rs sn avail rest (qid + 1) p with
          | none => none
          | some out => some ⟨rows ++ out.rows, out.exc, out.nextPoll, out.rest⟩
    else
      if sn == "stdin" then
        if avail p then
          match locateQueriesGo T rs sn avail rest qid (p + 1) with
          | none => none
          | some out => some ⟨out.rows, out.exc, out.nextPoll, out.rest⟩
        else some ⟨[], none, p + 1, rest⟩
      else locateQueriesGo T rs sn avail rest qid p

/-- The environment a run executes in: file system, reference content,
cache state, standard input and the poll oracle. -/
structure World where
  tmpdirEnv : Option String
  dirExists : String → Bool
  refExists : Bool
  refText : List Char
  fm9Cached : Bool
  idxCached : Option (List Nat)
  storeFm9Ok : Bool
  storeIdxOk : Bool
  stdinLines : List String
  avail : Nat → Bool
  fileContents : String → Option (List String)

/-- The warning JSON line printed for an unopenable query file
(lines 70-72). -/
def warnLine (f : String) : String :=
  "\x7b\"level\":\"warning\",\"info\":\"File does not exist. Skipping.\",\"file\":\"" ++ f ++ "\"\x7d"

/-- Result of the query-file loop of `main` (lines 63-78): rows, warning
lines, escaping exception, next poll index. -/
structure FilesOut where
  rows : List Hit
  warnings : List String
  exc : Option String
  nextPoll : Nat
deriving DecidableEq

/-- The query-file loop of `main` (lines 63-78): open each file in
command-line order; an unopenable file yields one warning and is skipped;
an openable one is processed by `locateQueries`. -/
def processFiles (w : World) (T : List Char) (rs : List Nat) :
    List String → Nat → Option FilesOut
  | [], p => some ⟨[], [], none, p⟩
  | f :: rest, p =>
    match w.fileContents f with
    | none =>
      match processFiles w T rs rest p with
      | none => none
      | some out => some ⟨out.rows, warnLine f :: out.warnings, out.exc, out.nextPoll⟩
    | some lines =>
      match locateQueriesGo T rs f w.avail lines 0 p with
      | none => none
      | some s =>
        match s.exc with
        | some e => some ⟨s.rows, [], some e, s.nextPoll⟩
        | none =>
          match processFiles w T rs rest s.nextPoll with
          | none => none
          | some out => some ⟨s.rows ++ out.rows, out.warnings, out.exc, out.nextPoll⟩

/-- `buildIndex` (lines 171-200): try to load `<reference>.fm9`; on failure
open the reference (throwing if it does not exist) and construct the index.
The return value of `store_to_file` on line 191 is ignored by the source,
so `World.storeFm9Ok` is deliberately not consulted here. -/
def buildIndexM (w : World) (refFile : String) : Except String Unit :=
  if w.fm9Cached then Except.ok ()
  else if !w.refExists then
    Except.error ("File `" ++ refFile ++ "` does not exist.")
  else Except.ok ()

/-- `getRecordStarts` (lines 202-238): try to load `<reference>.idx`; on
failure build the boundary array from the index and store it, throwing if
the store fails. -/
def getRecordStartsM (w : World) (refFile : String) : Except String (List Nat) :=
  match w.idxCached with
  | some rs => Except.ok rs
  | none =>
    let rs := getRecordStarts w.refText
    if w.storeIdxOk then Except.ok rs
    else Except.error ("Could not store record index: " ++ refFile ++ ".idx")

/-- The standard-input branch of `main` (lines 60-61): poll `hasStdin()`
(oracle index 1; index 0 was consumed by the early-exit test on line 53)
and process `cin` only if data is available.  When skipped, the stream is
left untouched. -/
def stdinPhase (w : World) (rs : List Nat) : Option SourceOut :=
  if w.avail 1 then
    locateQueriesGo w.refText rs "stdin" w.avail w.stdinLines 0 2
  else some ⟨[], none, 2, w.stdinLines⟩

/-- Outcome of the body of `main`'s outer try block. -/
structure BodyOut where
  rows : List Hit
  warnings : List String
  exc : Option String
deriving DecidableEq

/-- Body of `main` after argument parsing (lines 49-78): build/load the
index and the boundary array, return early when stdin has no data and no
query files were given, otherwise process stdin first and then the query
files. -/
def runBody (w : World) (refFile : String) (queryFiles : List String) :
    Option BodyOut :=
  match buildIndexM w refFile with
  | Except.error e => some ⟨[], [], some e⟩
  | Except.ok _ =>
    match getRecordStartsM w refFile with
    | Except.error e => some ⟨[], [], some e⟩
    | Except.ok rs =>
      if !(w.avail 0) && queryFiles.isEmpty then some ⟨[], [], none⟩
      else
        match stdinPhase w rs with
        | none => none
        | some s =>
          match s.exc with
          | some e => some ⟨s.rows, [], some e⟩
          | none =>
            match processFiles w w.refText rs queryFiles s.nextPoll with
            | none => none
            | some f => some ⟨s.rows ++ f.rows, f.warnings, f.exc⟩

/-- `getDefaultTempDir` (lines 102-116). -/
def getDefaultTempDir (w : World) : String :=
  w.tmpdirEnv.getD "/tmp"

/-- Option loop of `parseArgs` (lines 151-163): consume leading arguments
starting with '-'; `-P<dir>` sets the temp dir ("-P" alone throws), any
other option letter throws.  `argv[i][1]` of a bare "-" reads the C-string
terminator, modelled by the nul character default. -/
def parseOptionsGo (tempDir : String) :
    List String → Except String (String × List String)
  | [] => Except.ok (tempDir, [])
  | a :: rest =>
    if a.toList.getD 0 (Char.ofNat 0) = '-' then
      if a.toList.getD 1 (Char.ofNat 0) = 'P' then
        let v := a.toList.drop 2
        if v.length = 0 then Except.error "Missing value for -P."
        else parseOptionsGo (String.mk v) rest
      else
        Except.error ("Invalid option -" ++ String.mk [a.toList.getD 1 (Char.ofNat 0)] ++ ".")
    else Except.ok (tempDir, a :: rest)

/-- `parseArgs` (lines 147-169): the option loop followed by the
`dirExists` check on the selected temp dir. -/
def parseArgsM (w : World) (args : List String) :
    Except String (String × List String) :=
  match parseOptionsGo (getDefaultTempDir w) args with
  | Except.error e => Except.error e
  | Except.ok (tempDir, positionals) =>
    if w.dirExists tempDir then Except.ok (tempDir, positionals)
    else Except.error ("Cannot open temporary directory: " ++ tempDir)

/-- The inner try block of `main` (lines 29-43): `parseArgs` plus the
missing-positional check; any `FmIndexException` here leads to exit 1. -/
def parsePhase (w : World) (args : List String) :
    Except String (String × List String) :=
  match parseArgsM w args with
  | Except.error e => Except.error e
  | Except.ok (_, positionals) =>
    match positionals with
    | [] => Except.error "Missing arguments."
    | ref :: queryFiles => Except.ok (ref, queryFiles)

/-- The exceptions distinguished by `main`'s outer catch ladder
(lines 80-97). -/
inductive TopException where
  | fmIndexException (msg : String)
  | stdException (msg : String)
  | nonStdException
deriving DecidableEq

/-- `main`'s outer catch ladder (lines 80-99): exit 0 on normal return, 2
on `FmIndexException`, 3 on any other `std::exception`, 4 on a
non-exception throw. -/
def mainCatch (r : Except TopException Unit) : Nat :=
  match r with
  | Except.ok _ => 0
  | Except.error (TopException.fmIndexException _) => 2
  | Except.error (TopException.stdException _) => 3
  | Except.error TopException.nonStdException => 4

/-- `main` (lines 21-100): parse arguments (exit 1 on failure), run the
body, and map its outcome through the catch ladder.  The result is
`(exit code, stdout lines, warning lines)`; `none` is undefined
behaviour reached inside the body. -/
def runMain (args : List String) (w : World) :
    Option (Nat × List String × List String) :=
  match parsePhase w args with
  | Except.error _ => some (1, [], [])
  | Except.ok (ref, queryFiles) =>
    match runBody w ref queryFiles with
    | none => none
    | some out =>
      match out.exc with
      | some e =>
        some (mainCatch (Except.error (TopException.fmIndexException e)),
          out.rows.map renderHit, out.warnings)
      | none => some (0, out.rows.map renderHit, out.warnings)

/-- The rows printed for one query (projection of `locateQuery`'s model
used to state theorems). -/
def queryRows (T : List Char) (rs : List Nat) (sn : String) (qid : Nat)
    (q : List Char) : List Hit :=
  match locateQuery T rs sn qid q with
  | some (rows, _) => rows
  | none => []

/-- Follows the spec's words (QuerySource §4.2): the number of lines a
source of `n` pending lines yields when polls are an oracle starting at
index `p` — each consumed line is followed by one availability re-check
and consumption stops at the first unavailability point. -/
def availTaken (avail : Nat → Bool) : Nat → Nat → Nat
  | _, 0 => 0
  | p, n + 1 => 1 + (if avail p then availTaken avail (p + 1) n else 0)

/-- The per-hit property claimed for every offset `b` returned by `locate`
and the row emitted for it: the resolved record brackets `b`, the printed
length/offsets are the record-relative translations, the hit width is the
query length, and the reference bytes under the hit equal the query. -/
def hitMatches (T q : List Char) (rs : List Nat) (b : Nat) (hit : Hit) : Prop :=
  rs.getD hit.sourceId 0 ≤ b ∧ b < rs.getD (hit.sourceId + 1) 0 ∧
  hit.sourceLength = rs.getD (hit.sourceId + 1) 0 - rs.getD hit.sourceId 0 - 1 ∧
  hit.hitBegin = b - rs.getD hit.sourceId 0 ∧
  hit.hitEnd = (b + q.length) - rs.getD hit.sourceId 0 ∧
  hit.hitEnd - hit.hitBegin = q.length ∧
  (T.drop (rs.getD hit.sourceId 0 + hit.hitBegin)).take (hit.hitEnd - hit.hitBegin) = q

/-- Conclusion of the coordinate-translation claim for one query: the
query succeeds without an exception and every emitted row satisfies
`hitMatches` against its offset. -/
def locateQueryCorrect (T q : List Char) (rs : List Nat) (sn : String)
    (qid : Nat) : Prop :=
  ∃ hits, locateQuery T rs sn qid q = some (hits, none) ∧
    List.Forall₂ (hitMatches T q rs) (locate T q) hits

/-- The spec's §8 demonstration environment: reference `"ACGT\nACGA\n"`,
no caches, all stores succeed, query `"ACG"` pending on standard input,
data always available, an always-present temp directory and no openable
query files. -/
def demoWorld : World :=
  { tmpdirEnv := none
    dirExists := fun _ => true
    refExists := true
    refText := "ACGT\nACGA\n".toList
    fm9Cached := false
    idxCached := none
    storeFm9Ok := true
    storeIdxOk := true
    stdinLines := ["ACG"]
    avail := fun _ => true
    fileContents := fun _ => none }

/-! ### Lemmas about `locate` -/

lemma mem_locate {T q : List Char} {b : Nat} :
    b ∈ locate T q ↔ b ≤ T.length ∧ (T.drop b).take q.length = q := by
  simp [locate, List.mem_filter, List.mem_range, Nat.lt_succ_iff]

lemma locate_sorted (T q : List Char) : List.Pairwise (· < ·) (locate T q) :=
  (List.pairwise_lt_range _).filter _

lemma sortHits_locate (T q : List Char) : sortHits (locate T q) = locate T q :=
  List.Sorted.insertionSort_eq ((locate_sorted T q).imp le_of_lt)

lemma locate_lt_length {T q : List Char} (hq : q ≠ []) {b : Nat}
    (hb : b ∈ locate T q) : b < T.length := by
  rcases mem_locate.mp hb with ⟨hle, htake⟩
  rcases Nat.lt_or_ge b T.length with h | h
  · exact h
  · exfalso
    have hdrop : T.drop b = [] := List.drop_eq_nil_iff.mpr h
    rw [hdrop, List.take_nil] at htake
    exact hq htake.symm

lemma mem_locate_single {T : List Char} {c : Char} {o : Nat} :
    o ∈ locate T [c] ↔ T[o]? = some c := by
  rw [mem_locate]
  constructor
  · rintro ⟨hle, htake⟩
    simp only [List.length_cons, List.length_nil] at htake
    rcases Nat.lt_or_ge o T.length with h | h
    · rw [List.drop_eq_getElem_cons h, List.take_succ_cons, List.take_zero] at htake
      simp only [List.cons.injEq, and_true] at htake
      simp [List.getElem?_eq_getElem h, htake]
    · rw [List.drop_eq_nil_iff.mpr h, List.take_nil] at htake
      simp at htake
  · intro h
    have hlt : o < T.length := by
      by_contra hge
      rw [List.getElem?_eq_none (Nat.le_of_not_lt hge)] at h
      simp at h
    have hc : T[o] = c := by
      rw [List.getElem?_eq_getElem hlt] at h
      exact Option.some_injective _ h
    refine ⟨Nat.le_of_lt hlt, ?_⟩
    simp only [List.length_cons, List.length_nil]
    rw [List.drop_eq_getElem_cons hlt, List.take_succ_cons, List.take_zero, hc]

lemma locate_single_cons (c d : Char) (T : List Char) :
    locate (c :: T) [d] =
      (if c = d then [0] else []) ++ (locate T [d]).map (· + 1) := by
  unfold locate
  rw [show (c :: T).length + 1 = (T.length + 1) + 1 from rfl,
    List.range_succ_eq_map]
  rw [List.filter_cons]
  have hmap : List.filter (fun i => decide ((((c :: T).drop i).take [d].length) = [d]))
      (List.map Nat.succ (List.range (T.length + 1)))
      = List.map (· + 1) (List.filter (fun i => decide (((T.drop i).take [d].length) = [d]))
          (List.range (T.length + 1))) := by
    rw [List.filter_map]
    rfl
  rw [hmap]
  by_cases hcd : c = d
  · subst hcd
    simp [List.take_succ_cons]
  · simp [List.take_succ_cons, hcd]

lemma length_locate_single (T : List Char) (c : Char) :
    (locate T [c]).length = T.count c := by
  induction T with
  | nil => rfl
  | cons a T ih =>
    rw [locate_single_cons, List.count_cons, List.length_append,
      List.length_map, ih]
    by_cases h : a = c <;> simp [h, Nat.add_comm]

/-! ### Lemmas about sorted boundary arrays -/

lemma pairwise_getD_lt {rs : List Nat} (h : List.Pairwise (· < ·) rs)
    {i j : Nat} (hij : i < j) (hj : j < rs.length) :
    rs.getD i 0 < rs.getD j 0 := by
  have hi : i < rs.length := Nat.lt_trans hij hj
  rw [List.getD_eq_getElem _ _ hi, List.getD_eq_getElem _ _ hj]
  exact List.pairwise_iff_get.mp h ⟨i, hi⟩ ⟨j, hj⟩ hij

lemma pairwise_getD_le {rs : List Nat} (h : List.Pairwise (· < ·) rs)
    {i j : Nat} (hij : i ≤ j) (hj : j < rs.length) :
    rs.getD i 0 ≤ rs.getD j 0 := by
  rcases Nat.lt_or_ge i j with hlt | hge
  · exact Nat.le_of_lt (pairwise_getD_lt h hlt hj)
  · have : i = j := Nat.le_antisymm hij hge
    subst this
    exact Nat.le_refl _

/-! ### Lemmas about the `findSourceId` loop -/

lemma findSourceIdFrom_ok_lt {rs : List Nat} {b : Nat} :
    ∀ {fuel i j : Nat}, findSourceIdFrom rs b i fuel = some (Except.ok j) →
      j < i + fuel := by
  intro fuel
  induction fuel with
  | zero =>
    intro i j h
    simp [findSourceIdFrom, invalidHitMsg] at h
  | succ n ih =>
    intro i j h
    rw [findSourceIdFrom] at h
    cases hgi : rs[i]? with
    | none => simp [hgi] at h
    | some a =>
      cases hgi1 : rs[i + 1]? with
      | none => simp [hgi, hgi1] at h
      | some c =>
        simp only [hgi, hgi1] at h
        split at h
        · simp only [Option.some.injEq, Except.ok.injEq] at h
          omega
        · have := ih h
          omega

lemma findSourceIdFrom_ok {rs : List Nat} {b : Nat} :
    ∀ fuel i, i + fuel + 1 = rs.length →
      rs.getD i 0 ≤ b → b < rs.getD (rs.length - 1) 0 →
      ∃ j, findSourceIdFrom rs b i fuel = some (Except.ok j) ∧
        i ≤ j ∧ j + 1 < rs.length ∧ rs.getD j 0 ≤ b ∧ b < rs.getD (j + 1) 0 := by
  intro fuel
  induction fuel with
  | zero =>
    intro i hlen hlo hhi
    exfalso
    have hi : i = rs.length - 1 := by omega
    rw [hi] at hlo
    omega
  | succ n ih =>
    intro i hlen hlo hhi
    have hi1 : i + 1 < rs.length := by omega
    have hgi : rs[i]? = some (rs.getD i 0) := by
      rw [List.getD_eq_getElem _ _ (by omega)]
      exact List.getElem?_eq_getElem _
    have hgi1 : rs[i + 1]? = some (rs.getD (i + 1) 0) := by
      rw [List.getD_eq_getElem _ _ hi1]
      exact List.getElem?_eq_getElem _
    rw [findSourceIdFrom]
    rw [hgi, hgi1]
    by_cases hcond : rs.getD i 0 ≤ b ∧ b < rs.getD (i + 1) 0
    · refine ⟨i, ?_, Nat.le_refl i, hi1, hcond.1, hcond.2⟩
      show (if rs.getD i 0 ≤ b ∧ b < rs.getD (i + 1) 0 then some (Except.ok i)
          else findSourceIdFrom rs b (i + 1) n) = some (Except.ok i)
      rw [if_pos hcond]
    · have hnext : rs.getD (i + 1) 0 ≤ b := by
        rcases Nat.lt_or_ge b (rs.getD (i + 1) 0) with h | h
        · exact absurd ⟨hlo, h⟩ hcond
        · exact h
      rcases ih (i + 1) (by omega) hnext hhi with ⟨j, heq, hij, hj1, hjb, hbj⟩
      refine ⟨j, ?_, by omega, hj1, hjb, hbj⟩
      show (if rs.getD i 0 ≤ b ∧ b < rs.getD (i + 1) 0 then some (Except.ok i)
          else findSourceIdFrom rs b (i + 1) n) = some (Except.ok j)
      rw [if_neg hcond]
      exact heq

lemma findSourceIdFrom_err {rs : List Nat} {b : Nat} :
    ∀ fuel i, i + fuel + 1 = rs.length →
      (∀ j, j + 1 < rs.length → ¬(rs.getD j 0 ≤ b ∧ b < rs.getD (j + 1) 0)) →
      findSourceIdFrom rs b i fuel = some (Except.error invalidHitMsg) := by
  intro fuel
  induction fuel with
  | zero => intro i _ _; rfl
  | succ n ih =>
    intro i hlen hnone
    have hi1 : i + 1 < rs.length := by omega
    have hgi : rs[i]? = some (rs.getD i 0) := by
      rw [List.getD_eq_getElem _ _ (by omega)]
      exact List.getElem?_eq_getElem _
    have hgi1 : rs[i + 1]? = some (rs.getD (i + 1) 0) := by
      rw [List.getD_eq_getElem _ _ hi1]
      exact List.getElem?_eq_getElem _
    rw [findSourceIdFrom, hgi, hgi1]
    show (if rs.getD i 0 ≤ b ∧ b < rs.getD (i + 1) 0 then some (Except.ok i)
        else findSourceIdFrom rs b (i + 1) n) = some (Except.error invalidHitMsg)
    rw [if_neg (hnone i hi1)]
    exact ih (i + 1) (by omega) hnone

lemma findSourceId_eq_from {rs : List Nat} {R : Nat} (hlen : rs.length = R + 1)
    (b : Nat) : findSourceId rs b = findSourceIdFrom rs b 0 R := by
  unfold findSourceId
  rw [hlen]

lemma findSourceId_ok {rs : List Nat} {R b : Nat}
    (hlen : rs.length = R + 1)
    (hlo : rs.getD 0 0 ≤ b) (hhi : b < rs.getD R 0) :
    ∃ j, findSourceId rs b = some (Except.ok j) ∧ j + 1 ≤ R ∧
      rs.getD j 0 ≤ b ∧ b < rs.getD (j + 1) 0 := by
  have hR1 : rs.length - 1 = R := by omega
  rcases findSourceIdFrom_ok R 0 (by omega) hlo (by rw [hR1]; exact hhi)
    with ⟨j, heq, _, hj1, hjb, hbj⟩
  refine ⟨j, ?_, by omega, hjb, hbj⟩
  rw [findSourceId_eq_from hlen]
  exact heq

lemma findSourceId_err {rs : List Nat} {R b : Nat}
    (hlen : rs.length = R + 1)
    (hsort : List.Pairwise (· < ·) rs)
    (hout : b < rs.getD 0 0 ∨ rs.getD R 0 ≤ b) :
    findSourceId rs b = some (Except.error invalidHitMsg) := by
  rw [findSourceId_eq_from hlen]
  refine findSourceIdFrom_err R 0 (by omega) ?_
  intro j hj1
  rintro ⟨hjb, hbj⟩
  rcases hout with h | h
  · have : rs.getD 0 0 ≤ rs.getD j 0 :=
      pairwise_getD_le hsort (Nat.zero_le j) (by omega)
    omega
  · have : rs.getD (j + 1) 0 ≤ rs.getD R 0 :=
      pairwise_getD_le hsort (by omega) (by omega)
    omega

lemma boundary_unique {rs : List Nat} (hsort : List.Pairwise (· < ·) rs)
    {b i j : Nat} (hi1 : i + 1 < rs.length) (hj1 : j + 1 < rs.length)
    (hib : rs.getD i 0 ≤ b) (hbi : b < rs.getD (i + 1) 0)
    (hjb : rs.getD j 0 ≤ b) (hbj : b < rs.getD (j + 1) 0) : i = j := by
  by_contra hne
  rcases Nat.lt_or_ge i j with h | h
  · have hle : rs.getD (i + 1) 0 ≤ rs.getD j 0 :=
      pairwise_getD_le hsort h (by omega)
    omega
  · have hji : j < i := by omega
    have hle : rs.getD (j + 1) 0 ≤ rs.getD i 0 :=
      pairwise_getD_le hsort hji (by omega)
    omega

/-! ### Lemmas about `locateRows` and `locateQuery` -/

lemma forall₂_mem_and {α β : Type} {R : α → β → Prop} {Q : α → Prop} :
    ∀ {l1 : List α} {l2 : List β}, List.Forall₂ R l1 l2 →
      (∀ a ∈ l1, Q a) → List.Forall₂ (fun a b => Q a ∧ R a b) l1 l2 := by
  intro l1 l2 h
  induction h with
  | nil => intro _; exact List.Forall₂.nil
  | cons hr _ ih =>
    intro hq
    exact List.Forall₂.cons ⟨hq _ (List.mem_cons_self _ _), hr⟩
      (ih fun a ha => hq a (List.mem_cons_of_mem _ ha))

lemma locateRows_queryId {rs : List Nat} {sn : String} {qid qlen : Nat} :
    ∀ {bs : List Nat} {rows : List Hit} {r : Option String},
      locateRows rs sn qid qlen bs = some (rows, r) →
      ∀ hit ∈ rows, hit.queryId = qid := by
  intro bs
  induction bs with
  | nil =>
    intro rows r h hit hmem
    rw [locateRows] at h
    simp only [Option.some.injEq, Prod.mk.injEq] at h
    rw [← h.1] at hmem
    simp at hmem
  | cons b bs ih =>
    intro rows r h hit hmem
    rw [locateRows] at h
    cases hf : findSourceId rs b with
    | none => rw [hf] at h; simp at h
    | some res =>
      rw [hf] at h
      cases res with
      | error e =>
        simp only [Option.some.injEq, Prod.mk.injEq] at h
        rw [← h.1] at hmem
        simp at hmem
      | ok i =>
        cases hrec : locateRows rs sn qid qlen bs with
        | none => rw [hrec] at h; simp at h
        | some pr =>
          rw [hrec] at h
          rcases pr with ⟨rows', r'⟩
          simp only [Option.some.injEq, Prod.mk.injEq] at h
          rw [← h.1] at hmem
          rcases List.mem_cons.mp hmem with hh | ht
          · rw [hh]; rfl
          · exact ih hrec hit ht

lemma locateRows_ok {rs : List Nat} {R : Nat} (hlen : rs.length = R + 1)
    (h0 : rs.getD 0 0 = 0)
    (sn : String) (qid qlen : Nat) :
    ∀ bs : List Nat, (∀ b ∈ bs, b < rs.getD R 0) →
      ∃ hits, locateRows rs sn qid qlen bs = some (hits, none) ∧
        List.Forall₂ (fun b hit => ∃ i,
          findSourceId rs b = some (Except.ok i) ∧
          hit = mkHit rs sn qid qlen b i ∧ i + 1 ≤ R ∧
          rs.getD i 0 ≤ b ∧ b < rs.getD (i + 1) 0) bs hits := by
  intro bs
  induction bs with
  | nil => exact fun _ => ⟨[], rfl, List.Forall₂.nil⟩
  | cons b bs ih =>
    intro hb
    have hlo : rs.getD 0 0 ≤ b := by rw [h0]; exact Nat.zero_le b
    rcases findSourceId_ok hlen hlo (hb b (List.mem_cons_self _ _))
      with ⟨i, heq, hi1, hib, hbi⟩
    rcases ih (fun x hx => hb x (List.mem_cons_of_mem _ hx))
      with ⟨hits, hrows, hforall⟩
    refine ⟨mkHit rs sn qid qlen b i :: hits, ?_,
      List.Forall₂.cons ⟨i, heq, rfl, hi1, hib, hbi⟩ hforall⟩
    rw [locateRows, heq, hrows]

lemma locateQuery_ok {T q : List Char} {rs : List Nat} {R : Nat}
    (hq : q ≠ []) (hlen : rs.length = R + 1)
    (h0 : rs.getD 0 0 = 0) (hlast : rs.getD R 0 = T.length)
    (sn : String) (qid : Nat) :
    ∃ hits, locateQuery T rs sn qid q = some (hits, none) ∧
      List.Forall₂ (fun b hit => ((T.drop b).take q.length = q) ∧ ∃ i,
        findSourceId rs b = some (Except.ok i) ∧
        hit = mkHit rs sn qid q.length b i ∧ i + 1 ≤ R ∧
        rs.getD i 0 ≤ b ∧ b < rs.getD (i + 1) 0) (locate T q) hits := by
  have hb : ∀ b ∈ locate T q, b < rs.getD R 0 := by
    intro b hbmem
    rw [hlast]
    exact locate_lt_length hq hbmem
  rcases locateRows_ok hlen h0 sn qid q.length (locate T q) hb
    with ⟨hits, heq, hforall⟩
  refine ⟨hits, ?_, forall₂_mem_and hforall
    (fun b hbmem => (mem_locate.mp hbmem).2)⟩
  unfold locateQuery
  rw [sortHits_locate]
  exact heq

/-! ### Lemmas about `getRecordStarts` -/

lemma getRecordStarts_eq (T : List Char) :
    getRecordStarts T = 0 :: (locate T ['\n']).map (· + 1) := by
  unfold getRecordStarts
  rw [sortHits_locate]

lemma getRecordStarts_length (T : List Char) :
    (getRecordStarts T).length = T.count '\n' + 1 := by
  rw [getRecordStarts_eq]
  simp [length_locate_single]

lemma getRecordStarts_sorted (T : List Char) :
    List.Pairwise (· < ·) (getRecordStarts T) := by
  rw [getRecordStarts_eq]
  refine List.pairwise_cons.mpr ⟨?_, ?_⟩
  · intro x hx
    rcases List.mem_map.mp hx with ⟨e, _, rfl⟩
    omega
  · rw [List.pairwise_map]
    exact (locate_sorted T ['\n']).imp (fun h => by omega)

lemma getRecordStarts_head (T : List Char) :
    (getRecordStarts T).getD 0 0 = 0 := by
  rw [getRecordStarts_eq]
  rfl

lemma getRecordStarts_entry (T : List Char) {i : Nat} (h1 : 1 ≤ i)
    (h2 : i ≤ T.count '\n') :
    (getRecordStarts T).getD i 0 = (locate T ['\n']).getD (i - 1) 0 + 1 := by
  rw [getRecordStarts_eq]
  obtain ⟨j, rfl⟩ : ∃ j, i = j + 1 := ⟨i - 1, by omega⟩
  rw [List.getD_cons_succ]
  have hj : j < (locate T ['\n']).length := by
    rw [length_locate_single]
    omega
  have hj1 : j + 1 - 1 = j := by omega
  rw [hj1, List.getD_eq_getElem _ _ (by simpa using hj),
    List.getD_eq_getElem _ _ hj, List.getElem_map]

lemma locate_single_max {T : List Char} (hne : T ≠ [])
    (hlast : T.getLast? = some '\n') :
    (locate T ['\n']).getD (T.count '\n' - 1) 0 = T.length - 1 := by
  have hlen1 : 1 ≤ T.length := List.length_pos.mpr hne
  have hmem : T.length - 1 ∈ locate T ['\n'] := by
    rw [mem_locate_single]
    rw [List.getLast?_eq_getElem?] at hlast
    exact hlast
  have hbound : ∀ x ∈ locate T ['\n'], x ≤ T.length - 1 := by
    intro x hx
    rw [mem_locate_single] at hx
    by_contra hgt
    rw [List.getElem?_eq_none (by omega)] at hx
    simp at hx
  have hN : (locate T ['\n']).length = T.count '\n' := length_locate_single T '\n'
  rcases List.mem_iff_getElem.mp hmem with ⟨k, hk, hkeq⟩
  have hN1 : 1 ≤ T.count '\n' := by omega
  have hkN : k = T.count '\n' - 1 := by
    by_contra hne'
    have hklt : k < T.count '\n' - 1 := by omega
    have hlt : (locate T ['\n']).getD k 0 < (locate T ['\n']).getD (T.count '\n' - 1) 0 :=
      pairwise_getD_lt (locate_sorted T ['\n']) hklt (by omega)
    have hmem' : (locate T ['\n']).getD (T.count '\n' - 1) 0 ∈ locate T ['\n'] := by
      rw [List.getD_eq_getElem _ _ (by omega)]
      exact List.getElem_mem _
    have hle := hbound _ hmem'
    rw [List.getD_eq_getElem _ _ (by omega), hkeq] at hlt
    omega
  rw [← hkN, List.getD_eq_getElem _ _ hk, hkeq]

lemma getRecordStarts_last (T : List Char)
    (hT : T = [] ∨ T.getLast? = some '\n') :
    (getRecordStarts T).getD (T.count '\n') 0 = T.length := by
  rcases hT with rfl | hlast
  · rfl
  · have hne : T ≠ [] := by
      rintro rfl
      simp at hlast
    have hlen1 : 1 ≤ T.length := List.length_pos.mpr hne
    have hmemT : '\n' ∈ T := by
      have h' := hlast
      rw [List.getLast?_eq_getElem?] at h'
      have hlt : T.length - 1 < T.length := by omega
      rw [List.getElem?_eq_getElem hlt] at h'
      rcases List.mem_iff_getElem.mpr ⟨T.length - 1, hlt, Option.some_injective _ h'⟩ with h
      exact h
    have hcount : 1 ≤ T.count '\n' := List.count_pos_iff.mpr hmemT
    rw [getRecordStarts_entry T hcount (Nat.le_refl _),
      locate_single_max hne hlast]
    omega

/-! ### Lemmas about `locateQueriesGo` -/

lemma string_toList_ne_nil {line : String} (h : 0 < line.length) :
    line.toList ≠ [] := by
  intro hnil
  have h1 : line.toList.length = line.length := rfl
  rw [hnil] at h1
  simp at h1
  omega

lemma queryRows_queryId {T : List Char} {rs : List Nat} {sn : String}
    {qid : Nat} {q : List Char} :
    ∀ hit ∈ queryRows T rs sn qid q, hit.queryId = qid := by
  intro hit hmem
  unfold queryRows at hmem
  cases hq : locateQuery T rs sn qid q with
  | none =>
    rw [hq] at hmem
    simp at hmem
  | some pr =>
    rcases pr with ⟨rows, r⟩
    rw [hq] at hmem
    simp only at hmem
    unfold locateQuery at hq
    exact locateRows_queryId hq hit hmem

lemma locateQueriesGo_flat {T : List Char} {rs : List Nat} {R : Nat}
    (hlen : rs.length = R + 1) (h0 : rs.getD 0 0 = 0)
    (hlast : rs.getD R 0 = T.length) (sn : String) {avail : Nat → Bool}
    (havail : ∀ p', avail p' = true) :
    ∀ (lines : List String) (qid p : Nat),
      ∃ out, locateQueriesGo T rs sn avail lines qid p = some out ∧
        out.exc = none ∧
        out.rows = ((lines.filter (fun l => 0 < l.length)).enumFrom qid).flatMap
          (fun kl => queryRows T rs sn kl.1 kl.2.toList) := by
  intro lines
  induction lines with
  | nil =>
    intro qid p
    exact ⟨⟨[], none, p, []⟩, rfl, rfl, rfl⟩
  | cons line rest ih =>
    intro qid p
    by_cases hline : 0 < line.length
    · have hqne := string_toList_ne_nil hline
      rcases locateQuery_ok hqne hlen h0 hlast sn qid with ⟨hits, heq, _⟩
      have hqr : queryRows T rs sn qid line.toList = hits := by
        unfold queryRows
        rw [heq]
      have hfilter : (line :: rest).filter (fun l => 0 < l.length)
          = line :: rest.filter (fun l => 0 < l.length) :=
        List.filter_cons_of_pos (by simpa using hline)
      have hrows_goal : ∀ tailRows : List Hit,
          tailRows = ((rest.filter (fun l => 0 < l.length)).enumFrom (qid + 1)).flatMap
            (fun kl => queryRows T rs sn kl.1 kl.2.toList) →
          hits ++ tailRows =
            (((line :: rest).filter (fun l => 0 < l.length)).enumFrom qid).flatMap
              (fun kl => queryRows T rs sn kl.1 kl.2.toList) := by
        intro tailRows htr
        rw [hfilter, List.enumFrom_cons, List.flatMap_cons, hqr, htr]
      by_cases hsn : sn = "stdin"
      · subst hsn
        rcases ih (qid + 1) (p + 1) with ⟨out, hout, hexc, hrows⟩
        refine ⟨⟨hits ++ out.rows, out.exc, out.nextPoll, out.rest⟩, ?_, hexc,
          hrows_goal out.rows hrows⟩
        rw [locateQueriesGo, if_pos hline, heq]
        simp [havail, hout]
      · have hsnb : (sn == "stdin") = false := by
          simp [hsn]
        rcases ih (qid + 1) p with ⟨out, hout, hexc, hrows⟩
        refine ⟨⟨hits ++ out.rows, out.exc, out.nextPoll, out.rest⟩, ?_, hexc,
          hrows_goal out.rows hrows⟩
        rw [locateQueriesGo, if_pos hline, heq]
        simp [hsnb, hout]
    · have hfilter : (line :: rest).filter (fun l => 0 < l.length)
          = rest.filter (fun l => 0 < l.length) :=
        List.filter_cons_of_neg (by simpa using hline)
      by_cases hsn : sn = "stdin"
      · subst hsn
        rcases ih qid (p + 1) with ⟨out, hout, hexc, hrows⟩
        refine ⟨⟨out.rows, out.exc, out.nextPoll, out.rest⟩, ?_, hexc, ?_⟩
        · rw [locateQueriesGo, if_neg hline]
          simp [havail, hout]
        · rw [hfilter]
          exact hrows
      · have hsnb : (sn == "stdin") = false := by
          simp [hsn]
        rcases ih qid p with ⟨out, hout, hexc, hrows⟩
        refine ⟨out, ?_, hexc, ?_⟩
        · rw [locateQueriesGo, if_neg hline]
          simp [hsnb, hout]
        · rw [hfilter]
          exact hrows

lemma locateQueriesGo_stdin_rest {T : List Char} {rs : List Nat} {R : Nat}
    (hlen : rs.length = R + 1) (h0 : rs.getD 0 0 = 0)
    (hlast : rs.getD R 0 = T.length) (avail : Nat → Bool) :
    ∀ (lines : List String) (qid p : Nat),
      ∃ out, locateQueriesGo T rs "stdin" avail lines qid p = some out ∧
        out.exc = none ∧
        out.rest = lines.drop (availTaken avail p lines.length) := by
  intro lines
  induction lines with
  | nil =>
    intro qid p
    exact ⟨⟨[], none, p, []⟩, rfl, rfl, by simp [availTaken]⟩
  | cons line rest ih =>
    intro qid p
    have htaken : availTaken avail p (line :: rest).length
        = 1 + (if avail p then availTaken avail (p + 1) rest.length else 0) := by
      rw [List.length_cons, availTaken]
    by_cases hline : 0 < line.length
    · have hqne := string_toList_ne_nil hline
      rcases locateQuery_ok hqne hlen h0 hlast "stdin" qid with ⟨hits, heq, _⟩
      cases havailp : avail p with
      | true =>
        rcases ih (qid + 1) (p + 1) with ⟨out, hout, hexc, hrest⟩
        refine ⟨⟨hits ++ out.rows, out.exc, out.nextPoll, out.rest⟩, ?_, hexc, ?_⟩
        · rw [locateQueriesGo, if_pos hline, heq]
          simp [havailp, hout]
        · rw [htaken, havailp, if_pos rfl, Nat.add_comm 1 _, List.drop_succ_cons]
          exact hrest
      | false =>
        refine ⟨⟨hits, none, p + 1, rest⟩, ?_, rfl, ?_⟩
        · rw [locateQueriesGo, if_pos hline, heq]
          simp [havailp]
        · rw [htaken, havailp]
          simp
    · cases havailp : avail p with
      | true =>
        rcases ih qid (p + 1) with ⟨out, hout, hexc, hrest⟩
        refine ⟨⟨out.rows, out.exc, out.nextPoll, out.rest⟩, ?_, hexc, ?_⟩
        · rw [locateQueriesGo, if_neg hline]
          simp [havailp, hout]
        · rw [htaken, havailp, if_pos rfl, Nat.add_comm 1 _, List.drop_succ_cons]
          exact hrest
      | false =>
        refine ⟨⟨[], none, p + 1, rest⟩, ?_, rfl, ?_⟩
        · rw [locateQueriesGo, if_neg hline]
          simp [havailp]
        · rw [htaken, havailp]
          simp

/-! ### Lemmas about the driver -/

lemma runMain_usage {w : World} {args : List String} {e : String}
    (h : parsePhase w args = Except.error e) :
    runMain args w = some (1, [], []) := by
  unfold runMain
  rw [h]

lemma runMain_ok {w : World} {args : List String} {ref : String}
    {qf : List String} {out : BodyOut}
    (hp : parsePhase w args = Except.ok (ref, qf))
    (hb : runBody w ref qf = some out) (hexc : out.exc = none) :
    runMain args w = some (0, out.rows.map renderHit, out.warnings) := by
  unfold runMain
  simp only [hp, hb, hexc]

lemma runMain_exc {w : World} {args : List String} {ref : String}
    {qf : List String} {out : BodyOut} {e : String}
    (hp : parsePhase w args = Except.ok (ref, qf))
    (hb : runBody w ref qf = some out) (hexc : out.exc = some e) :
    runMain args w = some (2, out.rows.map renderHit, out.warnings) := by
  unfold runMain
  simp only [hp, hb, hexc, mainCatch]

lemma buildIndexM_ok_cached {w : World} {ref : String} (h : w.fm9Cached = true) :
    buildIndexM w ref = Except.ok () := by
  unfold buildIndexM
  rw [h]
  rfl

lemma buildIndexM_ok_fresh {w : World} {ref : String}
    (h1 : w.fm9Cached = false) (h2 : w.refExists = true) :
    buildIndexM w ref = Except.ok () := by
  unfold buildIndexM
  rw [h1, h2]
  rfl

lemma buildIndexM_err {w : World} {ref : String}
    (h1 : w.fm9Cached = false) (h2 : w.refExists = false) :
    buildIndexM w ref = Except.error ("File `" ++ ref ++ "` does not exist.") := by
  unfold buildIndexM
  rw [h1, h2]
  rfl

lemma getRecordStartsM_cached {w : World} {ref : String} {rs : List Nat}
    (h : w.idxCached = some rs) : getRecordStartsM w ref = Except.ok rs := by
  unfold getRecordStartsM
  rw [h]

lemma getRecordStartsM_build {w : World} {ref : String}
    (h : w.idxCached = none) (hs : w.storeIdxOk = true) :
    getRecordStartsM w ref = Except.ok (getRecordStarts w.refText) := by
  unfold getRecordStartsM
  rw [h]
  simp [hs]

lemma getRecordStartsM_err {w : World} {ref : String}
    (h : w.idxCached = none) (hs : w.storeIdxOk = false) :
    getRecordStartsM w ref
      = Except.error ("Could not store record index: " ++ ref ++ ".idx") := by
  unfold getRecordStartsM
  rw [h]
  simp [hs]

lemma stdinPhase_skip {w : World} {rs : List Nat} (h : w.avail 1 = false) :
    stdinPhase w rs = some ⟨[], none, 2, w.stdinLines⟩ := by
  unfold stdinPhase
  simp [h]

lemma stdinPhase_go {w : World} {rs : List Nat} (h : w.avail 1 = true) :
    stdinPhase w rs
      = locateQueriesGo w.refText rs "stdin" w.avail w.stdinLines 0 2 := by
  unfold stdinPhase
  simp [h]

lemma runBody_build_err {w : World} {ref : String} {qf : List String}
    {e : String} (h : buildIndexM w ref = Except.error e) :
    runBody w ref qf = some ⟨[], [], some e⟩ := by
  unfold runBody
  rw [h]

lemma runBody_starts_err {w : World} {ref : String} {qf : List String}
    {e : String} (hb : buildIndexM w ref = Except.ok ())
    (hg : getRecordStartsM w ref = Except.error e) :
    runBody w ref qf = some ⟨[], [], some e⟩ := by
  unfold runBody
  rw [hb, hg]

lemma runBody_noop {w : World} {ref : String} {rs : List Nat}
    (hb : buildIndexM w ref = Except.ok ())
    (hg : getRecordStartsM w ref = Except.ok rs) (ha : w.avail 0 = false) :
    runBody w ref [] = some ⟨[], [], none⟩ := by
  unfold runBody
  rw [hb, hg, ha]
  rfl

lemma runBody_run {w : World} {ref : String} {qf : List String}
    {rs : List Nat} {s : SourceOut} {f : FilesOut}
    (hb : buildIndexM w ref = Except.ok ())
    (hg : getRecordStartsM w ref = Except.ok rs)
    (hguard : w.avail 0 = true ∨ qf ≠ [])
    (hs : stdinPhase w rs = some s) (hsexc : s.exc = none)
    (hf : processFiles w w.refText rs qf s.nextPoll = some f) :
    runBody w ref qf = some ⟨s.rows ++ f.rows, f.warnings, f.exc⟩ := by
  unfold runBody
  rw [hb, hg]
  have hcond : (!(w.avail 0) && qf.isEmpty) = false := by
    rcases hguard with h | h
    · rw [h]
      rfl
    · cases qf with
      | nil => exact absurd rfl h
      | cons a l => simp
  rw [hcond]
  simp only [Bool.false_eq_true, if_false, hs, hsexc, hf]

lemma processFiles_skip {w : World} {T : List Char} {rs : List Nat}
    {f : String} {rest : List String} {p : Nat}
    (h : w.fileContents f = none) :
    processFiles w T rs (f :: rest) p = (processFiles w T rs rest p).map
      (fun out => ⟨out.rows, warnLine f :: out.warnings, out.exc, out.nextPoll⟩) := by
  rw [processFiles, h]
  cases processFiles w T rs rest p <;> rfl

/-! ### Claim theorems -/

/-- C1: for every query `q` and every absolute offset `b` returned by
`locate` for `q` against a valid boundary array `rs` (size `R+1`, first
entry 0, last entry `length T`), the emitted hit row reports a record
`r = sourceId` with `starts[r] ≤ b < starts[r+1]`,
`recordLength = starts[r+1] - starts[r] - 1`, `hitBegin = b - starts[r]`,
`hitEnd = (b + length q) - starts[r]`; consequently
`hitEnd - hitBegin = length q` and the reference bytes at
`[starts[r]+hitBegin, starts[r]+hitEnd)` equal `q`. -/
theorem locateQuery_emits_correct_rows
    (T q : List Char) (rs : List Nat) (R : Nat) (sn : String) (qid : Nat)
    (hq : q ≠ []) (hlen : rs.length = R + 1) (h0 : rs.getD 0 0 = 0)
    (hlast : rs.getD R 0 = T.length) :
    locateQueryCorrect T q rs sn qid := by
  rcases locateQuery_ok hq hlen h0 hlast sn qid with ⟨hits, heq, hf⟩
  refine ⟨hits, heq, hf.imp ?_⟩
  rintro b hit ⟨htake, i, hfse, rfl, hi1, hib, hbi⟩
  unfold hitMatches
  refine ⟨hib, hbi, rfl, rfl, rfl, ?_, ?_⟩
  · show (b + q.length - rs.getD i 0) - (b - rs.getD i 0) = q.length
    omega
  · show (T.drop (rs.getD i 0 + (b - rs.getD i 0))).take
        ((b + q.length - rs.getD i 0) - (b - rs.getD i 0)) = q
    have h1 : rs.getD i 0 + (b - rs.getD i 0) = b := by omega
    have h2 : (b + q.length - rs.getD i 0) - (b - rs.getD i 0) = q.length := by
      omega
    rw [h1, h2]
    exact htake

/-- C1 witness: the demonstration scenario instantiates the theorem. -/
theorem locateQuery_emits_correct_rows_witness :
    locateQueryCorrect "ACGT\nACGA\n".toList "ACG".toList [0, 5, 10] "stdin" 0 :=
  locateQuery_emits_correct_rows _ _ _ 2 _ _ (by decide) rfl rfl rfl

/-- C2: for every reference text `T` with `N` records (`N` terminator
bytes, every record carrying its terminator, i.e. `T` empty or ending in
the terminator), the boundary array built on a cache miss has exactly
`N+1` entries, is strictly increasing, starts with 0, ends with
`length T`, and entry `i ≥ 1` equals the `(i-1)`-th terminator offset in
ascending order plus one (`locate T ['\n']` being exactly the ascending
terminator offsets). -/
theorem getRecordStarts_boundary_invariants (T : List Char) (N : Nat)
    (hN : T.count '\n' = N) (hT : T = [] ∨ T.getLast? = some '\n') :
    (getRecordStarts T).length = N + 1 ∧
    List.Pairwise (· < ·) (getRecordStarts T) ∧
    (getRecordStarts T).getD 0 0 = 0 ∧
    (getRecordStarts T).getD N 0 = T.length ∧
    List.Pairwise (· < ·) (locate T ['\n']) ∧
    (∀ o, o ∈ locate T ['\n'] ↔ T[o]? = some '\n') ∧
    (∀ i, 1 ≤ i → i ≤ N → (getRecordStarts T).getD i 0
      = (locate T ['\n']).getD (i - 1) 0 + 1) := by
  subst hN
  exact ⟨getRecordStarts_length T, getRecordStarts_sorted T,
    getRecordStarts_head T, getRecordStarts_last T hT, locate_sorted T ['\n'],
    fun o => mem_locate_single, fun i h1 h2 => getRecordStarts_entry T h1 h2⟩

/-- C2 witness: the two-record text `"A\nB\n"` has `starts[2] = 4`. -/
theorem getRecordStarts_boundary_invariants_witness :
    (getRecordStarts "A\nB\n".toList).getD 2 0 = "A\nB\n".toList.length :=
  (getRecordStarts_boundary_invariants "A\nB\n".toList 2 (by decide)
    (Or.inr (by decide))).2.2.2.1

/-- C3: for every strictly increasing boundary array of size `R+1`
(`R ≥ 1`) and offset `b` with `starts[0] ≤ b < starts[R]`, the lookup
returns the unique `i` with `starts[i] ≤ b < starts[i+1]`; for every `b`
outside that range it returns the thrown `FmIndexException` (which `main`
maps to the aborting exit path). -/
theorem findSourceId_boundary_lookup (rs : List Nat) (R b : Nat)
    (hlen : rs.length = R + 1) (_hR : 1 ≤ R)
    (hsort : List.Pairwise (· < ·) rs) :
    (rs.getD 0 0 ≤ b → b < rs.getD R 0 →
      ∃ i, findSourceId rs b = some (Except.ok i) ∧
        rs.getD i 0 ≤ b ∧ b < rs.getD (i + 1) 0 ∧
        ∀ j, j + 1 ≤ R → rs.getD j 0 ≤ b → b < rs.getD (j + 1) 0 → j = i) ∧
    ((b < rs.getD 0 0 ∨ rs.getD R 0 ≤ b) →
      findSourceId rs b = some (Except.error invalidHitMsg)) := by
  constructor
  · intro hlo hhi
    rcases findSourceId_ok hlen hlo hhi with ⟨i, heq, hi1, hib, hbi⟩
    exact ⟨i, heq, hib, hbi, fun j hj1 hjb hbj =>
      boundary_unique hsort (by omega) (by omega) hjb hbj hib hbi⟩
  · exact findSourceId_err hlen hsort

/-- C3 witness: an offset past the last boundary raises the error. -/
theorem findSourceId_boundary_lookup_witness :
    findSourceId [0, 5, 10] 12 = some (Except.error invalidHitMsg) :=
  (findSourceId_boundary_lookup [0, 5, 10] 2 12 rfl (by decide) (by decide)).2
    (Or.inr (by decide))

/-- C4 counterexample: a run in which writing the serialized index
(`<reference>.fm9`) fails completes normally (exit 0) and keeps emitting
rows — `store_to_file`'s return value is ignored on line 191 — so a cache
write failure is not always fatal as claimed. -/
theorem fm9_store_failure_not_fatal :
    ({ demoWorld with storeFm9Ok := false } : World).storeFm9Ok = false ∧
    runMain ["ref"] { demoWorld with storeFm9Ok := false }
      = some (0, ["stdin\t0\t4\t0\t0\t3", "stdin\t1\t4\t0\t0\t3"], []) :=
  ⟨rfl, rfl⟩

/-- C4 (amended): a failure to write the boundary cache
(`<reference>.idx`) is fatal — the run raises the `FmIndexException` and
exits 2 without processing any query — while a `.fm9` write failure is
silently ignored. -/
theorem idx_store_failure_fatal (w : World) (ref : String)
    (files : List String)
    (href : ref.toList.getD 0 (Char.ofNat 0) ≠ '-')
    (hdir : w.dirExists (getDefaultTempDir w) = true)
    (hbuild : buildIndexM w ref = Except.ok ())
    (hcache : w.idxCached = none) (hstore : w.storeIdxOk = false) :
    runMain (ref :: files) w = some (2, [], []) := by
  have hparse : parsePhase w (ref :: files) = Except.ok (ref, files) := by
    unfold parsePhase parseArgsM parseOptionsGo
    rw [if_neg href]
    simp [hdir]
  have hst := @getRecordStartsM_err w ref hcache hstore
  have hrb := @runBody_starts_err w ref files _ hbuild hst
  have h := runMain_exc hparse hrb rfl
  simpa using h

/-- C4 witness: concrete run with a failing `.idx` store exits 2. -/
theorem idx_store_failure_fatal_witness :
    runMain ["ref"] { demoWorld with storeIdxOk := false } = some (2, [], []) :=
  idx_store_failure_fatal _ "ref" [] (by decide) rfl rfl rfl rfl

/-- C5: the exit-code contract of `main` — 1 on every usage error (and
the four usage categories all are parse failures); 0 on success,
including the no-queries no-op which still builds/loads the index and
produces no output; 2 when a `FmIndexException` escapes the body (missing
reference file, boundary-cache write failure, or the coordinate-resolution
invariant via `runBody`); the catch ladder maps any other `std::exception`
to 3 and a non-exception fault to 4. -/
theorem exit_code_contract :
    (∀ (w : World) (args : List String) (e : String),
      parsePhase w args = Except.error e → runMain args w = some (1, [], [])) ∧
    (∀ w : World, ∃ e, parsePhase w [] = Except.error e) ∧
    (∀ (w : World) (rest : List String), parsePhase w ("-X" :: rest)
      = Except.error "Invalid option -X.") ∧
    (∀ (w : World) (rest : List String), parsePhase w ("-P" :: rest)
      = Except.error "Missing value for -P.") ∧
    (∀ (w : World) (r : String) (rest : List String),
      r.toList.getD 0 (Char.ofNat 0) ≠ '-' → w.dirExists "/nodir" = false →
      parsePhase w ("-P/nodir" :: r :: rest)
        = Except.error "Cannot open temporary directory: /nodir") ∧
    (∀ (w : World) (args : List String) (ref : String) (qf : List String)
      (out : BodyOut),
      parsePhase w args = Except.ok (ref, qf) → runBody w ref qf = some out →
      out.exc = none → runMain args w = some (0, out.rows.map renderHit, out.warnings)) ∧
    (∀ (w : World) (ref : String) (rs : List Nat),
      buildIndexM w ref = Except.ok () → getRecordStartsM w ref = Except.ok rs →
      w.avail 0 = false → runBody w ref [] = some ⟨[], [], none⟩) ∧
    (∀ (w : World) (args : List String) (ref : String) (qf : List String)
      (out : BodyOut) (e : String),
      parsePhase w args = Except.ok (ref, qf) → runBody w ref qf = some out →
      out.exc = some e → runMain args w = some (2, out.rows.map renderHit, out.warnings)) ∧
    (∀ (w : World) (ref : String) (qf : List String),
      w.fm9Cached = false → w.refExists = false →
      runBody w ref qf
        = some ⟨[], [], some ("File `" ++ ref ++ "` does not exist.")⟩) ∧
    (∀ (w : World) (ref : String) (qf : List String),
      buildIndexM w ref = Except.ok () → w.idxCached = none →
      w.storeIdxOk = false →
      runBody w ref qf
        = some ⟨[], [], some ("Could not store record index: " ++ ref ++ ".idx")⟩) ∧
    (∀ m : String, mainCatch (Except.error (TopException.stdException m)) = 3) ∧
    (mainCatch (Except.error TopException.nonStdException) = 4) := by
  refine ⟨fun w args e h => runMain_usage h, ?_, fun w rest => rfl,
    fun w rest => rfl, ?_, fun w args ref qf out hp hb he => runMain_ok hp hb he,
    fun w ref rs hb hg ha => runBody_noop hb hg ha,
    fun w args ref qf out e hp hb he => runMain_exc hp hb he,
    fun w ref qf h1 h2 => runBody_build_err (buildIndexM_err h1 h2),
    fun w ref qf hb hc hs => runBody_starts_err hb (getRecordStartsM_err hc hs),
    fun m => rfl, rfl⟩
  · intro w
    cases h : w.dirExists (getDefaultTempDir w)
    · exact ⟨"Cannot open temporary directory: " ++ getDefaultTempDir w,
        by simp [parsePhase, parseArgsM, parseOptionsGo, h]⟩
    · exact ⟨"Missing arguments.",
        by simp [parsePhase, parseArgsM, parseOptionsGo, h]⟩
  · intro w r rest hr h
    have hstep : parseOptionsGo (getDefaultTempDir w) ("-P/nodir" :: r :: rest)
        = parseOptionsGo "/nodir" (r :: rest) := rfl
    have hstep2 : parseOptionsGo "/nodir" (r :: rest)
        = Except.ok ("/nodir", r :: rest) := by
      unfold parseOptionsGo
      rw [if_neg hr]
    unfold parsePhase parseArgsM
    rw [hstep, hstep2]
    simp [h]

/-- C5 witness: an unknown option exits 1. -/
theorem exit_code_contract_witness :
    runMain ["-X"] demoWorld = some (1, [], []) :=
  exit_code_contract.1 demoWorld ["-X"] "Invalid option -X." rfl

/-- C6: standard input is consumed before any file source and only when
the start-of-run poll reports data (otherwise it is skipped untouched);
while reading, availability is re-polled after every consumed line and
consumption stops at the first unavailability point, so the consumed
lines are exactly the prefix of length `availTaken` and the stream keeps
the matching suffix. -/
theorem stdin_availability_contract (w : World) (ref : String)
    (queryFiles : List String) (rs : List Nat) (R : Nat)
    (hb : buildIndexM w ref = Except.ok ())
    (hg : getRecordStartsM w ref = Except.ok rs)
    (hlen : rs.length = R + 1) (h0 : rs.getD 0 0 = 0)
    (hlast : rs.getD R 0 = w.refText.length) :
    (w.avail 1 = false → stdinPhase w rs = some ⟨[], none, 2, w.stdinLines⟩) ∧
    (w.avail 1 = true → ∃ s, stdinPhase w rs = some s ∧ s.exc = none ∧
      s.rest = w.stdinLines.drop (availTaken w.avail 2 w.stdinLines.length) ∧
      w.stdinLines
        = w.stdinLines.take (availTaken w.avail 2 w.stdinLines.length) ++ s.rest) ∧
    (∀ s f, stdinPhase w rs = some s → s.exc = none →
      processFiles w w.refText rs queryFiles s.nextPoll = some f →
      (w.avail 0 = true ∨ queryFiles ≠ []) →
      runBody w ref queryFiles = some ⟨s.rows ++ f.rows, f.warnings, f.exc⟩) := by
  refine ⟨fun h => stdinPhase_skip h, fun h => ?_,
    fun s f hs hsexc hf hguard => runBody_run hb hg hguard hs hsexc hf⟩
  rcases locateQueriesGo_stdin_rest hlen h0 hlast w.avail w.stdinLines 0 2
    with ⟨s, hseq, hsexc, hsrest⟩
  refine ⟨s, ?_, hsexc, hsrest, ?_⟩
  · rw [stdinPhase_go h]
    exact hseq
  · rw [hsrest]
    exact (List.take_append_drop _ _).symm

/-- C6 witness: with no data available at start, stdin is skipped whole. -/
theorem stdin_availability_contract_witness :
    stdinPhase { demoWorld with avail := fun _ => false } [0, 5, 10]
      = some ⟨[], none, 2, ["ACG"]⟩ :=
  (stdin_availability_contract { demoWorld with avail := fun _ => false }
    "ref" [] [0, 5, 10] 2 rfl rfl rfl rfl rfl).1 rfl

/-- C7: an unopenable query file contributes exactly one warning line and
zero rows while the remaining sources are processed in order, and a run
whose only anomaly is such a file exits 0. -/
theorem missing_query_file_skipped :
    (∀ (w : World) (T : List Char) (rs : List Nat) (f : String)
      (rest : List String) (p : Nat), w.fileContents f = none →
      processFiles w T rs (f :: rest) p = (processFiles w T rs rest p).map
        (fun out => ⟨out.rows, warnLine f :: out.warnings, out.exc, out.nextPoll⟩)) ∧
    runMain ["ref", "missing"]
        { demoWorld with stdinLines := [], avail := fun _ => false }
      = some (0, [], [warnLine "missing"]) := by
  exact ⟨fun w T rs f rest p h => processFiles_skip h, rfl⟩

/-- C7 witness: one missing file yields exactly its warning. -/
theorem missing_query_file_skipped_witness :
    processFiles demoWorld [] [] ["f"] 0 = (processFiles demoWorld [] [] [] 0).map
      (fun out => ⟨out.rows, warnLine "f" :: out.warnings, out.exc, out.nextPoll⟩) :=
  missing_query_file_skipped.1 demoWorld [] [] "f" [] 0 rfl

/-- C8: blank lines are discarded — the rows of a source are exactly the
concatenation of the rows of its non-empty lines numbered from 0 (blank
lines produce no output and consume no id) — and every row produced for
query id `k` carries `queryId = k`; ids restart at 0 for each source. -/
theorem blank_lines_and_per_source_ids
    (T : List Char) (rs : List Nat) (R : Nat) (sn : String)
    (avail : Nat → Bool) (lines : List String) (p : Nat)
    (hlen : rs.length = R + 1) (h0 : rs.getD 0 0 = 0)
    (hlast : rs.getD R 0 = T.length) (havail : ∀ p', avail p' = true) :
    (∃ out, locateQueriesGo T rs sn avail lines 0 p = some out ∧
      out.exc = none ∧
      out.rows = ((lines.filter (fun l => 0 < l.length)).enumFrom 0).flatMap
        (fun kl => queryRows T rs sn kl.1 kl.2.toList)) ∧
    (∀ (qid : Nat) (q : List Char), ∀ hit ∈ queryRows T rs sn qid q,
      hit.queryId = qid) :=
  ⟨locateQueriesGo_flat hlen h0 hlast sn havail lines 0 p,
    fun _ _ => queryRows_queryId⟩

/-- C8 witness: the row of the non-empty query keeps its assigned id. -/
theorem blank_lines_and_per_source_ids_witness :
    (mkHit [0, 2] "s" 5 1 0 0).queryId = 5 :=
  (blank_lines_and_per_source_ids "A\n".toList [0, 2] 1 "s" (fun _ => true)
    [] 0 rfl rfl rfl (fun _ => rfl)).2 5 "A".toList
    (mkHit [0, 2] "s" 5 1 0 0) (by decide)

/-- C9: with reference `"ACGT\nACGA\n"` and the single query `"ACG"` on
standard input, the run writes exactly the two rows
`stdin 0 4 0 0 3` and `stdin 1 4 0 0 3`, in that order. -/
theorem scenario_two_records :
    runMain ["ref"] demoWorld
      = some (0, ["stdin\t0\t4\t0\t0\t3", "stdin\t1\t4\t0\t0\t3"], []) := rfl

/-- C10: whenever `findSourceId` returns an index `i` on an array of at
least two entries, `i + 1` is still in bounds, so the subsequent
`recordStarts[sourceId]`/`recordStarts[sourceId+1]` accesses in
`locateQuery` are safe; on the empty array the underflowing `size_t` loop
bound leads straight to an out-of-bounds read (undefined behaviour,
`none`), so non-emptiness is a genuine precondition. -/
theorem findSourceId_access_safe :
    (∀ (rs : List Nat) (b i : Nat), 2 ≤ rs.length →
      findSourceId rs b = some (Except.ok i) → i + 1 < rs.length) ∧
    (∀ b : Nat, findSourceId ([] : List Nat) b = none) := by
  constructor
  · intro rs b i h2 h
    obtain ⟨R, hlen⟩ : ∃ R, rs.length = R + 1 := ⟨rs.length - 1, by omega⟩
    rw [findSourceId_eq_from hlen] at h
    have hlt := findSourceIdFrom_ok_lt h
    omega
  · intro b
    rfl

/-- C10 witness: a successful lookup lands strictly inside the array. -/
theorem findSourceId_access_safe_witness :
    0 + 1 < ([0, 5] : List Nat).length :=
  findSourceId_access_safe.1 [0, 5] 2 0 (by decide) rfl

end FmIndex
